import Mathlib

/-!
# Verification of Rust-Framework-Snippets

Shallow embedding, in Lean 4, of the programs in this repository
(`_rayon`, `_serde`, `_tokio`) together with proofs of the specified
properties.  Pure Rust functions become Lean functions on `Nat`
(with explicit `% 2 ^ 64` where `u64` overflow matters); fallible code
returns `Option`/`Except`.  The cooperative async runtime described by
the specification (executor, timer subsystem, spawn, join/select
combinators) is not part of the repository's sources — the `_tokio`
example only *calls* tokio's `spawn`, `sleep`, `join!` and `select!` —
so that part is modelled from the specification, as marked on each
definition.
-/

/-! ## Part 1: the `_rayon` example

`src/_rayon/src/main.rs`:

```rust
fn fibonacci(n: u64) -> u64 {
    match n {
        0 => 0,
        1 => 1,
        _ => fibonacci(n - 1) + fibonacci(n - 2),
    }
}
```
-/

/-- `2 ^ 64`, the modulus of Rust's `u64` arithmetic. -/
def U64_MOD : Nat := 2 ^ 64

/-- Embedding of `fibonacci` from `src/_rayon/src/main.rs` (release-build
semantics: `u64` addition wraps modulo `2 ^ 64`).  The wildcard arm of the
Rust `match` covers exactly the inputs `n + 2`, so the subtractions
`n - 1` and `n - 2` are evaluated only when `n ≥ 2`. -/
def fibonacci : Nat → Nat
  | 0 => 0
  | 1 => 1
  | n + 2 => (fibonacci (n + 1) + fibonacci n) % U64_MOD

/-- The same recursion as `fibonacci`, instrumented for overflow: the
addition returns `none` as soon as any intermediate sum would exceed
`u64::MAX`, i.e. as soon as a `u64` overflow would occur (the behaviour
of a debug build, where overflow panics). -/
def fibonacciChecked : Nat → Option Nat
  | 0 => some 0
  | 1 => some 1
  | n + 2 =>
    match fibonacciChecked (n + 1), fibonacciChecked n with
    | some a, some b => if a + b < U64_MOD then some (a + b) else none
    | _, _ => none

/-- The mathematical Fibonacci function, exactly as the claim states it:
`Fib(0) = 0`, `Fib(1) = 1`, `Fib(n) = Fib(n-1) + Fib(n-2)`, in exact
(unbounded) integer arithmetic. -/
def fibSpec : Nat → Nat
  | 0 => 0
  | 1 => 1
  | n + 2 => fibSpec (n + 1) + fibSpec n

theorem fibSpec_eq_nat_fib : ∀ n, fibSpec n = Nat.fib n := by
  intro n
  induction n using Nat.strong_induction_on with
  | _ n ih =>
    match n with
    | 0 => rfl
    | 1 => rfl
    | n + 2 =>
      rw [fibSpec, ih (n + 1) (by omega), ih n (by omega), Nat.fib_add_two,
        Nat.add_comm]

theorem fibSpec_le_succ : ∀ n, fibSpec n ≤ fibSpec (n + 1)
  | 0 => by simp [fibSpec]
  | 1 => by simp [fibSpec]
  | n + 2 => by
    rw [fibSpec]
    exact Nat.le_add_right _ _

theorem fibSpec_mono : ∀ {m n : Nat}, m ≤ n → fibSpec m ≤ fibSpec n := by
  intro m n h
  induction h with
  | refl => exact le_refl _
  | step _ ih => exact le_trans ih (fibSpec_le_succ _)

theorem fibSpec_93_lt : fibSpec 93 < U64_MOD := by
  rw [fibSpec_eq_nat_fib]
  decide

/-- Whenever the exact value fits in a `u64`, the checked recursion never
overflows and both embeddings agree with the mathematical function. -/
theorem fibonacci_agrees_of_lt :
    ∀ n, fibSpec n < U64_MOD →
      fibonacciChecked n = some (fibSpec n) ∧ fibonacci n = fibSpec n := by
  intro n
  induction n using Nat.strong_induction_on with
  | _ n ih =>
    match n with
    | 0 => intro _; exact ⟨rfl, rfl⟩
    | 1 => intro _; exact ⟨rfl, rfl⟩
    | n + 2 =>
      intro h
      have hsum : fibSpec (n + 1) + fibSpec n < U64_MOD := by
        rw [← fibSpec]; exact h
      have h1 : fibSpec (n + 1) < U64_MOD :=
        lt_of_le_of_lt (Nat.le_add_right _ _) hsum
      have h2 : fibSpec n < U64_MOD :=
        lt_of_le_of_lt (Nat.le_add_left _ _) hsum
      obtain ⟨c1, w1⟩ := ih (n + 1) (by omega) h1
      obtain ⟨c2, w2⟩ := ih n (by omega) h2
      constructor
      · rw [fibonacciChecked, c1, c2]
        simp [hsum, fibSpec]
      · rw [fibonacci, w1, w2, Nat.mod_eq_of_lt hsum, fibSpec]

/-!
`src/_rayon/src/main.rs`:

```rust
fn sequential(range: Range<u64>) -> HashMap<u64, u64> {
    range.map(|index| (index, fibonacci(index))).collect()
}

fn parallel(range: Range<u64>) -> HashMap<u64, u64> {
    range
        .into_par_iter()
        .map(|index| (index, fibonacci(index)))
        .collect()
}
```
-/

/-- The list of indices of the Rust range `lo..hi`. -/
def rangeList (lo hi : Nat) : List Nat := List.range' lo (hi - lo)

/-- Collecting a sequence of key/value pairs into a `HashMap`, viewed as a
lookup function: inserts are performed left to right and a later insert of
an existing key overwrites the earlier one. -/
def hashMapOf (l : List (Nat × Nat)) : Nat → Option Nat :=
  l.foldl (fun m kv => fun x => if x = kv.1 then some kv.2 else m x)
    (fun _ => none)

/-- Embedding of `sequential`: map the range through
`|index| (index, fibonacci(index))` and collect the pairs in range order. -/
def sequential (lo hi : Nat) : List (Nat × Nat) :=
  (rangeList lo hi).map (fun index => (index, fibonacci index))

/-- Embedding of `parallel`: Rayon's `into_par_iter().map(...).collect()`
produces the same key/value pairs, delivered in some scheduler-dependent
order; the embedding takes that order as an arbitrary list `order` of the
range's indices (any permutation of `rangeList lo hi`). -/
def parallel (lo hi : Nat) (order : List Nat) : List (Nat × Nat) :=
  order.map (fun index => (index, fibonacci index))

theorem hashMapOf_map_fn (f : Nat → Nat) :
    ∀ (l : List Nat) (acc : Nat → Option Nat) (k : Nat),
      (l.map (fun i => (i, f i))).foldl
          (fun m kv => fun x => if x = kv.1 then some kv.2 else m x) acc k =
        if k ∈ l then some (f k) else acc k := by
  intro l
  induction l with
  | nil => intro acc k; simp
  | cons i l ih =>
    intro acc k
    by_cases hk : k ∈ l
    · simp [List.foldl_cons, ih, hk]
    · by_cases hki : k = i
      · subst hki
        simp [List.foldl_cons, ih, hk]
      · simp [List.foldl_cons, ih, hk, hki]

theorem hashMapOf_sequential (lo hi k : Nat) :
    hashMapOf (sequential lo hi) k =
      if k ∈ rangeList lo hi then some (fibonacci k) else none := by
  unfold hashMapOf sequential
  exact hashMapOf_map_fn fibonacci (rangeList lo hi) (fun _ => none) k

/-- **C8.** For every range of `u64` values, the parallel function returns
a `HashMap` equal to the one returned by the sequential function on the
same range — whichever order Rayon's scheduler delivers the indices in —
and both map each index in the range to `fibonacci(index)`. -/
theorem parallel_refines_sequential (lo hi : Nat) (order : List Nat)
    (hperm : order.Perm (rangeList lo hi)) :
    (∀ k, hashMapOf (parallel lo hi order) k = hashMapOf (sequential lo hi) k) ∧
    (∀ k, hashMapOf (sequential lo hi) k =
      if k ∈ rangeList lo hi then some (fibonacci k) else none) := by
  constructor
  · intro k
    rw [hashMapOf_sequential lo hi k]
    unfold hashMapOf parallel
    rw [hashMapOf_map_fn fibonacci order (fun _ => none) k]
    simp [hperm.mem_iff]
  · exact hashMapOf_sequential lo hi

/-- Witness for C8 at the concrete range `0..3` with the parallel order
delivering index 2 first. -/
theorem parallel_refines_sequential_witness :
    (∀ k, hashMapOf (parallel 0 3 [2, 0, 1]) k =
      hashMapOf (sequential 0 3) k) ∧
    (∀ k, hashMapOf (sequential 0 3) k =
      if k ∈ rangeList 0 3 then some (fibonacci k) else none) :=
  parallel_refines_sequential 0 3 [2, 0, 1] (by decide)

/-- **C10.** For every `n ≤ 93`, `fibonacci(n)` terminates (it is a total
function of `n`) and equals the mathematical Fibonacci number `Fib(n)`,
and the overflow-instrumented recursion completes without any `u64`
overflow in any intermediate addition, returning that same value. -/
theorem fibonacci_correct_below_94 (n : Nat) (h : n ≤ 93) :
    fibonacciChecked n = some (fibSpec n) ∧ fibonacci n = fibSpec n :=
  fibonacci_agrees_of_lt n (lt_of_le_of_lt (fibSpec_mono h) fibSpec_93_lt)

/-- Witness for C10 at `n = 20`: `fibonacci 20` evaluates to `Fib(20) = 6765`
and the checked recursion reports no overflow. -/
theorem fibonacci_correct_below_94_witness :
    fibonacciChecked 20 = some (fibSpec 20) ∧ fibonacci 20 = fibSpec 20 ∧
      fibSpec 20 = 6765 :=
  ⟨(fibonacci_correct_below_94 20 (by decide)).1,
   (fibonacci_correct_below_94 20 (by decide)).2, by decide⟩

/-! ## Part 2: the `_serde` example

`src/_serde/src/main.rs` defines

```rust
enum Color { Red, Green, Blue, RgbColor(u8, u8, u8) }
struct Config { some_setting: String, color: Color, enabled_features: Vec<String> }
```

with derived `Serialize`/`Deserialize`, reads the config with
`load_config` (`serde_json::from_reader`) and writes the default with
`generate_default_config` (`serde_json::to_writer_pretty`).  The JSON
text layer of `serde_json` is modelled by a tree of JSON values: the
serializer produces the tree `serde_json` would render and the
deserializer consumes it, so the round trip through the file is the
round trip through the tree. -/

/-- JSON values, as produced/consumed by `serde_json`. -/
inductive Json where
  | str (s : String)
  | num (n : Nat)
  | arr (elems : List Json)
  | obj (fields : List (String × Json))
deriving Repr

/-- Embedding of the `Color` enum; the `u8` payload of `RgbColor` is a
`Nat` that the deserializer bounds-checks at 255. -/
inductive Color where
  | Red
  | Green
  | Blue
  | RgbColor (r g b : Nat)
deriving Repr, DecidableEq

/-- Embedding of the `Config` struct. -/
structure Config where
  some_setting : String
  color : Color
  enabled_features : List String
deriving Repr, DecidableEq

/-- Serde's derived `Serialize` for `Color` (externally tagged enum):
a unit variant becomes its name as a JSON string, the tuple variant
becomes a one-field object mapping the variant name to the payload
array. -/
def serializeColor : Color → Json
  | .Red => .str "Red"
  | .Green => .str "Green"
  | .Blue => .str "Blue"
  | .RgbColor r g b => .obj [("RgbColor", .arr [.num r, .num g, .num b])]

/-- Serde's derived `Serialize` for `Config`: an object with the struct's
fields in declaration order. -/
def serializeConfig (c : Config) : Json :=
  .obj [("some_setting", .str c.some_setting),
        ("color", serializeColor c.color),
        ("enabled_features", .arr (c.enabled_features.map .str))]

/-- Serde's derived `Deserialize` for `Color`: accepts exactly the shapes
`serializeColor` emits, rejecting `u8` payloads above 255. -/
def deserializeColor : Json → Option Color
  | .str s =>
    if s = "Red" then some .Red
    else if s = "Green" then some .Green
    else if s = "Blue" then some .Blue
    else none
  | .obj [(tag, .arr [.num r, .num g, .num b])] =>
    if tag = "RgbColor" ∧ r ≤ 255 ∧ g ≤ 255 ∧ b ≤ 255 then
      some (.RgbColor r g b)
    else none
  | _ => none

/-- Deserializing a `Vec<String>`: every element must be a JSON string. -/
def deserializeStrings : List Json → Option (List String)
  | [] => some []
  | .str s :: rest =>
    match deserializeStrings rest with
    | some ss => some (s :: ss)
    | none => none
  | _ => none

/-- Serde's derived `Deserialize` for `Config`, on the field layout the
serializer emits. -/
def deserializeConfig : Json → Option Config
  | .obj [("some_setting", .str s), ("color", cj), ("enabled_features", .arr fj)] =>
    match deserializeColor cj, deserializeStrings fj with
    | some color, some feats =>
      some { some_setting := s, color := color, enabled_features := feats }
    | _, _ => none
  | _ => none

/-- Embedding of `load_config`: parse the stored JSON into a `Config`;
the `panic!` on a malformed file becomes `none`. -/
def load_config (stored : Json) : Option Config :=
  deserializeConfig stored

/-- Embedding of `generate_default_config`: the concrete default `Config`
the program builds (it also writes `serializeConfig` of this value to the
file and returns the value). -/
def generate_default_config : Config :=
  { some_setting := "some value",
    color := .RgbColor 0 0 0,
    enabled_features := ["feature1", "feature2"] }

/-- **C9.** Serializing the default `Config` produced by
`generate_default_config` and deserializing the result with `load_config`
yields the original `Config` back (same `some_setting`, `color` and
`enabled_features`): a run that creates the config file and a later run
that loads it observe the same configuration. -/
theorem load_config_roundtrip :
    load_config (serializeConfig generate_default_config) =
      some generate_default_config := by
  decide

/-! ## Part 3: the cooperative async runtime (modelled from the spec)

The `_tokio` example (`src/_tokio/src/main.rs`) only *uses* tokio's
`spawn`, `sleep`, `join!` and `select!`; the runtime those names refer to
is not part of this repository's sources.  The specification describes
that runtime in detail (Future/poll contract, timer subsystem,
executor with a FIFO ready queue, spawn/JoinHandle, join and select
combinators), so this part models it from the specification and proves
the claimed properties of the model.  Results and printed lines are the
observables: every future yields a `Nat` and printing appends to a
trace. -/

namespace Sched

/-- Modelled from the spec (§4.1): the result of one `poll` call —
`Pending`, `Ready(value)`, or a panic escaping the polled future. -/
inductive PollOut where
  | pending
  | ready (v : Nat)
  | panicked (msg : String)
deriving Repr, DecidableEq

/-- Modelled from the spec (§3, TimerEntry): a (deadline, Waker) pair;
`id` identifies the registration so cancellation can remove it, and the
waker is the id of the task to mark runnable (0 is the root task driven
by `block_on`). -/
structure TimerEntry where
  id : Nat
  deadline : Nat
  waker : Nat
deriving Repr, DecidableEq

/-- Modelled from the spec (§4.2): the registry is kept min-ordered,
"keyed primarily by deadline and secondarily by insertion order": a new
entry is placed after every existing entry whose deadline is at most its
own, so entries sharing a deadline stay in insertion order. -/
def insertTimer : List TimerEntry → TimerEntry → List TimerEntry
  | [], e => [e]
  | x :: xs, e =>
    if x.deadline ≤ e.deadline then x :: insertTimer xs e
    else e :: x :: xs

/-- Modelled from the spec (§4.2): at a tick, every entry whose deadline
has elapsed fires, in registry order (deadline order, insertion order
among equal deadlines); the fired entries are removed.  Returns the
wakers invoked, in firing order, and the remaining registry. -/
def fireElapsed (now : Nat) : List TimerEntry → List Nat × List TimerEntry
  | [] => ([], [])
  | e :: es =>
    if e.deadline ≤ now then
      let (ws, r) := fireElapsed now es
      (e.waker :: ws, r)
    else ([], e :: es)

/-- Modelled from the spec (§3, Future): the suspendable computations the
tutorial's futures are built from.  `ret` is an already-computed result;
`emit` prints a line and is then ready (the body of `say_hi`);
`sleepFor` is `sleep(duration)` before its first poll; `sleepUntil` is a
sleep that has registered timer entry `eid` with absolute deadline `dl`;
`panicF` is a future whose poll panics. -/
inductive Fut where
  | ret (v : Nat)
  | emit (msg : String) (v : Nat)
  | sleepFor (d : Nat)
  | sleepUntil (eid dl : Nat)
  | panicF (msg : String)
deriving Repr, DecidableEq

/-- Modelled from the spec (§3, Task): scheduling state of a task. -/
inductive TaskState where
  | runnable
  | suspended
  | completed (v : Nat)
  | panickedSt (msg : String)
deriving Repr, DecidableEq

/-- Modelled from the spec (§3, Task): an executor-owned unit combining a
future and its scheduling state. -/
structure Task where
  tid : Nat
  fut : Fut
  state : TaskState
deriving Repr, DecidableEq

/-- Modelled from the spec (§2, §4.3): the runtime state — monotonic
clock, timer registry, the executor's tasks and FIFO ready queue, fresh
ids, and the trace of printed lines (the observable output). -/
structure RT where
  now : Nat
  timers : List TimerEntry
  nextTimerId : Nat
  tasks : List Task
  readyQueue : List Nat
  nextTaskId : Nat
  trace : List String
deriving Repr, DecidableEq

/-- The initial runtime state; task id 0 is reserved for the root task. -/
def initRT : RT :=
  { now := 0, timers := [], nextTimerId := 0, tasks := [], readyQueue := [],
    nextTaskId := 1, trace := [] }

/-- Modelled from the spec (§4.1/§4.2): one poll of a future, with the
waker `w` threaded through the call.  A first poll of `sleepFor d`
computes the absolute deadline `now + d`, inserts a timer entry carrying
`w`, and returns `Pending`; subsequent polls return `Pending` until the
deadline has elapsed and `Ready(())` (encoded `ready 0`) afterwards. -/
def pollFut (w : Nat) : Fut → RT → PollOut × Fut × RT
  | .ret v, s => (.ready v, .ret v, s)
  | .emit m v, s => (.ready v, .emit m v, { s with trace := s.trace ++ [m] })
  | .sleepFor d, s =>
    (.pending, .sleepUntil s.nextTimerId (s.now + d),
      { s with timers := insertTimer s.timers ⟨s.nextTimerId, s.now + d, w⟩,
               nextTimerId := s.nextTimerId + 1 })
  | .sleepUntil eid dl, s =>
    if dl ≤ s.now then (.ready 0, .sleepUntil eid dl, s)
    else (.pending, .sleepUntil eid dl, s)
  | .panicF m, s => (.panicked m, .panicF m, s)

/-- Modelled from the spec (§4.2/§5, cancellation): dropping a future
releases the resources it registered — an armed sleep's timer entry is
removed from the registry. -/
def dropFut : Fut → RT → RT
  | .sleepUntil eid _, s =>
    { s with timers := s.timers.filter (fun e => e.id ≠ eid) }
  | _, s => s

/-- Replace the future and state of task `tid`. -/
def setTask (tid : Nat) (f : Fut) (st : TaskState) : List Task → List Task
  | [] => []
  | t :: ts =>
    if t.tid = tid then { t with fut := f, state := st } :: ts
    else t :: setTask tid f st ts

/-- Modelled from the spec (§4.3): the executor polls one task's future;
`Ready` marks it `Completed` storing the result, `Pending` marks it
`Suspended`, and a panic is caught at the task boundary and marks it
`Panicked` — the executor itself keeps running.  A task already
completed or panicked is never re-polled. -/
def stepTask (s : RT) (tid : Nat) : RT :=
  match s.tasks.find? (fun t => t.tid = tid) with
  | none => s
  | some t =>
    match t.state with
    | .completed _ => s
    | .panickedSt _ => s
    | _ =>
      match pollFut tid t.fut s with
      | (.ready v, f', s1) =>
        { s1 with tasks := setTask tid f' (.completed v) s1.tasks }
      | (.pending, f', s1) =>
        { s1 with tasks := setTask tid f' .suspended s1.tasks }
      | (.panicked m, f', s1) =>
        { s1 with tasks := setTask tid f' (.panickedSt m) s1.tasks }

/-- Modelled from the spec (§4.3): service the FIFO ready queue — poll
each queued task once, in queue order. -/
def drainQueue (s : RT) : RT :=
  s.readyQueue.foldl stepTask { s with readyQueue := [] }

/-- Modelled from the spec (§3, Waker): mark task `w` runnable and
enqueue it; waking an already-runnable task is an idempotent no-op, and
waking the root task (id 0, not in the task list) is handled by the
driving loop itself re-polling. -/
def wake (w : Nat) (s : RT) : RT :=
  match s.tasks.find? (fun t => t.tid = w) with
  | some t =>
    match t.state with
    | .suspended =>
      { s with tasks := setTask w t.fut .runnable s.tasks,
               readyQueue := s.readyQueue ++ [w] }
    | _ => s
  | none => s

/-- Modelled from the spec (§4.3): when nothing is runnable, advance the
clock to the earliest pending timer deadline, remove that entry and
invoke its waker. -/
def fireNext (s : RT) : RT :=
  match s.timers with
  | [] => s
  | e :: rest => wake e.waker { s with timers := rest, now := max s.now e.deadline }

/-- Modelled from the spec (§4.4): `spawn(future)` wraps the future in a
new task, enqueues it `Runnable`, and returns the task id (the
JoinHandle's referent) immediately — a plain state function, never a
suspension point. -/
def spawn (f : Fut) (s : RT) : Nat × RT :=
  (s.nextTaskId,
    { s with tasks := s.tasks ++ [⟨s.nextTaskId, f, .runnable⟩],
             readyQueue := s.readyQueue ++ [s.nextTaskId],
             nextTaskId := s.nextTaskId + 1 })

/-- `println!`: append a line to the trace. -/
def printLn (m : String) (s : RT) : RT := { s with trace := s.trace ++ [m] }

/-- Modelled from the spec (§3, JoinHandle / §7): the outcome a caller
observes — a value, a surfaced panic (a distinct variant, never silently
swallowed), or a stall (§7.1: progress impossible because nothing is
runnable and no timer is pending, or the driving loop's fuel ran out). -/
inductive Outcome where
  | ok (v : Nat)
  | panicked (msg : String)
  | stalled
deriving Repr, DecidableEq

/-- Modelled from the spec (§4.3/§6, `block_on`): the root task awaits a
future inline: poll it with waker 0; while `Pending`, let the executor
service the ready queue, then advance the clock to the next timer and
retry.  A panic propagates to the awaiting caller. -/
def awaitFutAux : Nat → Fut → RT → Outcome × RT
  | 0, _, s => (.stalled, s)
  | fuel + 1, f, s =>
    match pollFut 0 f s with
    | (.ready v, _, s1) => (.ok v, s1)
    | (.panicked m, _, s1) => (.panicked m, s1)
    | (.pending, f', s1) =>
      let s2 := drainQueue s1
      match s2.timers with
      | [] => (.stalled, s2)
      | _ :: _ => awaitFutAux fuel f' (fireNext s2)

/-- Await a future inline with enough fuel for every scenario in this
file (each task and the root arm at most one timer each). -/
def awaitFut (f : Fut) (s : RT) : Outcome × RT :=
  awaitFutAux (s.timers.length + s.tasks.length + s.readyQueue.length + 2) f s

/-- The stored outcome of task `tid`, once it has completed or panicked. -/
def taskOutcome (tid : Nat) (s : RT) : Option Outcome :=
  match s.tasks.find? (fun t => t.tid = tid) with
  | some t =>
    match t.state with
    | .completed v => some (.ok v)
    | .panickedSt m => some (.panicked m)
    | _ => none
  | none => none

/-- Modelled from the spec (§4.4): awaiting a JoinHandle blocks
(cooperatively) until the referenced task reaches `Completed` or
`Panicked`, then yields the stored outcome — `Panicked` is surfaced as
its own variant, never silently dropped. -/
def awaitHandleAux : Nat → Nat → RT → Outcome × RT
  | 0, _, s => (.stalled, s)
  | fuel + 1, tid, s =>
    match taskOutcome tid s with
    | some o => (o, s)
    | none =>
      let s1 := drainQueue s
      match taskOutcome tid s1 with
      | some o => (o, s1)
      | none =>
        match s1.timers with
        | [] => (.stalled, s1)
        | _ :: _ => awaitHandleAux fuel tid (fireNext s1)

/-- Await a JoinHandle with enough fuel for every scenario in this file. -/
def awaitHandle (tid : Nat) (s : RT) : Outcome × RT :=
  awaitHandleAux (s.timers.length + s.tasks.length + s.readyQueue.length + 2) tid s

end Sched

namespace Sched

/-- Modelled from the spec (§4.5): a child of the join combinator —
either still unresolved, or already resolved with its recorded result
(a child already ready from a prior round is not re-polled). -/
inductive JChild where
  | unres (f : Fut)
  | res (v : Nat)
deriving Repr, DecidableEq

/-- Is this child resolved? -/
def JChild.isRes : JChild → Bool
  | .res _ => true
  | .unres _ => false

/-- Does polling this child panic? -/
def JChild.panics : JChild → Bool
  | .unres (.panicF _) => true
  | _ => false

/-- The recorded results of the resolved children, in argument order. -/
def resValues : List JChild → List Nat
  | [] => []
  | .res v :: cs => v :: resValues cs
  | .unres _ :: cs => resValues cs

/-- The (0-based) argument positions of the unresolved children,
counting from `i`. -/
def unresolvedIdxs (i : Nat) : List JChild → List Nat
  | [] => []
  | .res _ :: cs => unresolvedIdxs (i + 1) cs
  | .unres _ :: cs => i :: unresolvedIdxs (i + 1) cs

/-- What one poll of the join combinator returned. -/
inductive JoinOut where
  | pending
  | ready (vs : List Nat)
  | panicked (msg : String)
deriving Repr, DecidableEq

/-- The result of one poll round of the join combinator. -/
structure JoinStep where
  children : List JChild
  state : RT
  polled : List Nat
  out : JoinOut
deriving Repr, DecidableEq

/-- Modelled from the spec (§4.5): one poll round of
`join(f1, …, fn)` walks the children left to right from position `i`,
polling each not-yet-ready child exactly once and recording fresh
results; a panicking child aborts the round immediately (fail-fast),
leaving the siblings to its right unpolled. -/
def joinPollAux (w : Nat) (i : Nat) :
    List JChild → RT → List JChild × RT × List Nat × Option String
  | [], s => ([], s, [], none)
  | .res v :: cs, s =>
    let (cs', s', polled, pan) := joinPollAux w (i + 1) cs s
    (.res v :: cs', s', polled, pan)
  | .unres f :: cs, s =>
    match pollFut w f s with
    | (.ready v, _, s1) =>
      let (cs', s', polled, pan) := joinPollAux w (i + 1) cs s1
      (.res v :: cs', s', i :: polled, pan)
    | (.pending, f', s1) =>
      let (cs', s', polled, pan) := joinPollAux w (i + 1) cs s1
      (.unres f' :: cs', s', i :: polled, pan)
    | (.panicked m, f', s1) => (.unres f' :: cs, s1, [i], some m)

/-- Modelled from the spec (§4.5): one poll of the join combinator:
run a poll round over all children; propagate a child's panic
immediately, return `Ready` with all results in argument order once
every child has resolved, and `Pending` otherwise. -/
def joinPoll (w : Nat) (cs : List JChild) (s : RT) : JoinStep :=
  match joinPollAux w 0 cs s with
  | (cs', s', polled, some m) => ⟨cs', s', polled, .panicked m⟩
  | (cs', s', polled, none) =>
    if cs'.all JChild.isRes then ⟨cs', s', polled, .ready (resValues cs')⟩
    else ⟨cs', s', polled, .pending⟩

theorem unresolvedIdxs_lt :
    ∀ (cs : List JChild) (i j : Nat), j ∈ unresolvedIdxs i cs → i ≤ j := by
  intro cs
  induction cs with
  | nil => intro i j h; simp [unresolvedIdxs] at h
  | cons c cs ih =>
    intro i j h
    match c with
    | .res v =>
      rw [unresolvedIdxs] at h
      exact le_trans (Nat.le_succ i) (ih (i + 1) j h)
    | .unres f =>
      rw [unresolvedIdxs] at h
      rcases List.mem_cons.mp h with h | h
      · omega
      · exact le_trans (Nat.le_succ i) (ih (i + 1) j h)

/-- The positions a join round visits are strictly increasing: no
position is visited twice and they come in left-to-right order. -/
theorem unresolvedIdxs_sorted :
    ∀ (cs : List JChild) (i : Nat),
      (unresolvedIdxs i cs).Pairwise (· < ·) := by
  intro cs
  induction cs with
  | nil => intro i; simp [unresolvedIdxs]
  | cons c cs ih =>
    intro i
    match c with
    | .res v => rw [unresolvedIdxs]; exact ih (i + 1)
    | .unres f =>
      rw [unresolvedIdxs]
      refine List.pairwise_cons.mpr ⟨?_, ih (i + 1)⟩
      intro j hj
      exact lt_of_lt_of_le (Nat.lt_succ_self i) (unresolvedIdxs_lt cs (i + 1) j hj)

/-- Without a panicking child, a join round polls exactly the unresolved
positions, in order. -/
theorem joinPollAux_polled :
    ∀ (cs : List JChild) (w i : Nat) (s : RT),
      (∀ c ∈ cs, c.panics = false) →
      (joinPollAux w i cs s).2.2.1 = unresolvedIdxs i cs ∧
        (joinPollAux w i cs s).2.2.2 = none := by
  intro cs
  induction cs with
  | nil => intro w i s _; exact ⟨rfl, rfl⟩
  | cons c cs ih =>
    intro w i s hnp
    have hc := hnp c (List.mem_cons_self c cs)
    have hcs : ∀ c ∈ cs, c.panics = false :=
      fun x hx => hnp x (List.mem_cons_of_mem c hx)
    match c with
    | .res v =>
      rw [joinPollAux, unresolvedIdxs]
      obtain ⟨h1, h2⟩ := ih w (i + 1) s hcs
      exact ⟨h1, h2⟩
    | .unres f =>
      rw [unresolvedIdxs]
      match hf : f with
      | .ret v =>
        rw [joinPollAux]
        obtain ⟨h1, h2⟩ := ih w (i + 1) s hcs
        simp [pollFut, h1, h2]
      | .emit m v =>
        rw [joinPollAux]
        obtain ⟨h1, h2⟩ :=
          ih w (i + 1) ({ s with trace := s.trace ++ [m] }) hcs
        simp [pollFut, h1, h2]
      | .sleepFor d =>
        rw [joinPollAux]
        obtain ⟨h1, h2⟩ := ih w (i + 1)
          ({ s with timers := insertTimer s.timers ⟨s.nextTimerId, s.now + d, w⟩,
                    nextTimerId := s.nextTimerId + 1 }) hcs
        simp [pollFut, h1, h2]
      | .sleepUntil eid dl =>
        rw [joinPollAux]
        by_cases hdl : dl ≤ s.now
        · obtain ⟨h1, h2⟩ := ih w (i + 1) s hcs
          simp [pollFut, hdl, h1, h2]
        · obtain ⟨h1, h2⟩ := ih w (i + 1) s hcs
          simp [pollFut, hdl, h1, h2]
      | .panicF m => simp [JChild.panics] at hc

theorem joinPollAux_all_ready :
    ∀ (vs : List Nat) (w i : Nat) (s : RT),
      joinPollAux w i (vs.map (fun v => JChild.unres (Fut.ret v))) s =
        (vs.map JChild.res, s, List.range' i vs.length, none) := by
  intro vs
  induction vs with
  | nil => intro w i s; rfl
  | cons v vs ih =>
    intro w i s
    rw [List.map_cons, joinPollAux]
    simp [pollFut, ih w (i + 1) s, List.range'_succ]

theorem resValues_map_res : ∀ vs : List Nat, resValues (vs.map JChild.res) = vs := by
  intro vs
  induction vs with
  | nil => rfl
  | cons v vs ih => rw [List.map_cons, resValues, ih]

theorem all_isRes_map_res :
    ∀ vs : List Nat, (vs.map JChild.res).all JChild.isRes = true := by
  intro vs
  induction vs with
  | nil => rfl
  | cons v vs ih => rw [List.map_cons, List.all_cons, ih]; rfl

/-- **C1.** One poll of the join combinator polls exactly the
not-yet-ready children, each exactly once, in left-to-right argument
order (the visited positions are strictly increasing); it returns
`Ready` with the results in argument order precisely when every child
has resolved and `Pending` otherwise; and join over `n`
immediately-ready children resolves on its first poll with all `n`
results in argument order, leaving the runtime state untouched. -/
theorem join_polls_in_order_and_joins_ready (w : Nat) (cs : List JChild)
    (s : RT) (vs : List Nat) (hnp : ∀ c ∈ cs, c.panics = false) :
    (joinPoll w cs s).polled = unresolvedIdxs 0 cs ∧
    (unresolvedIdxs 0 cs).Pairwise (· < ·) ∧
    ((joinPoll w cs s).out = .ready (resValues (joinPoll w cs s).children) ↔
      (joinPoll w cs s).children.all JChild.isRes = true) ∧
    ((joinPoll w cs s).out = .pending ↔
      ¬ (joinPoll w cs s).children.all JChild.isRes = true) ∧
    (cs = vs.map (fun v => JChild.unres (Fut.ret v)) →
      joinPoll w cs s =
        ⟨vs.map JChild.res, s, List.range' 0 vs.length, .ready vs⟩) := by
  have ha := joinPollAux_polled cs w 0 s hnp
  refine ⟨?_, unresolvedIdxs_sorted cs 0, ?_, ?_, ?_⟩
  · rcases hx : joinPollAux w 0 cs s with ⟨cs', s', polled, pan⟩
    rw [hx] at ha
    obtain ⟨h1, h2⟩ := ha
    simp only at h1 h2
    subst h2
    by_cases hall : cs'.all JChild.isRes = true
    · simp [joinPoll, hx, hall, h1]
    · simp [joinPoll, hx, hall, h1]
  · rcases hx : joinPollAux w 0 cs s with ⟨cs', s', polled, pan⟩
    rw [hx] at ha
    obtain ⟨h1, h2⟩ := ha
    simp only at h1 h2
    subst h2
    by_cases hall : cs'.all JChild.isRes = true
    · simp [joinPoll, hx, hall]
    · simp [joinPoll, hx, hall]
  · rcases hx : joinPollAux w 0 cs s with ⟨cs', s', polled, pan⟩
    rw [hx] at ha
    obtain ⟨h1, h2⟩ := ha
    simp only at h1 h2
    subst h2
    by_cases hall : cs'.all JChild.isRes = true
    · simp [joinPoll, hx, hall]
    · simp [joinPoll, hx, hall]
  · intro hcs
    subst hcs
    rw [joinPoll, joinPollAux_all_ready vs w 0 s]
    simp [all_isRes_map_res, resValues_map_res]

/-- Witness for C1: joining two immediately-ready children with values
4 and 9 resolves on the first poll with `[4, 9]`. -/
theorem join_polls_in_order_witness :
    (joinPoll 0 [JChild.unres (Fut.ret 4), JChild.unres (Fut.ret 9)]
        initRT).polled =
      unresolvedIdxs 0 [JChild.unres (Fut.ret 4), JChild.unres (Fut.ret 9)] ∧
    (unresolvedIdxs 0
        [JChild.unres (Fut.ret 4), JChild.unres (Fut.ret 9)]).Pairwise
      (· < ·) ∧
    ((joinPoll 0 [JChild.unres (Fut.ret 4), JChild.unres (Fut.ret 9)]
          initRT).out =
        .ready (resValues
          (joinPoll 0 [JChild.unres (Fut.ret 4), JChild.unres (Fut.ret 9)]
            initRT).children) ↔
      (joinPoll 0 [JChild.unres (Fut.ret 4), JChild.unres (Fut.ret 9)]
          initRT).children.all JChild.isRes = true) ∧
    ((joinPoll 0 [JChild.unres (Fut.ret 4), JChild.unres (Fut.ret 9)]
          initRT).out = .pending ↔
      ¬ (joinPoll 0 [JChild.unres (Fut.ret 4), JChild.unres (Fut.ret 9)]
          initRT).children.all JChild.isRes = true) ∧
    ([JChild.unres (Fut.ret 4), JChild.unres (Fut.ret 9)] =
        [4, 9].map (fun v => JChild.unres (Fut.ret v)) →
      joinPoll 0 [JChild.unres (Fut.ret 4), JChild.unres (Fut.ret 9)]
          initRT =
        ⟨[4, 9].map JChild.res, initRT, List.range' 0 2, .ready [4, 9]⟩) :=
  join_polls_in_order_and_joins_ready 0
    [JChild.unres (Fut.ret 4), JChild.unres (Fut.ret 9)] initRT [4, 9]
    (by decide)

/-- What one poll of the two-branch select combinator returned. -/
inductive SelPoll where
  | pend (a b : Fut)
  | won (tag v : Nat)
  | panickedSel (msg : String)
deriving Repr, DecidableEq

/-- Modelled from the spec (§4.6): one poll of `select(f1, f2)` polls the
not-yet-settled children in argument order; as soon as one is `Ready`
the combinator resolves with that child's tag and result and the
remaining child is dropped (its timer registration removed) — the first
ready child in argument order wins.  A panicking child wins the same
way, propagating the panic.  Also returns the tags polled this round. -/
def selectPoll (w : Nat) (a b : Fut) (s : RT) : SelPoll × RT × List Nat :=
  match pollFut w a s with
  | (.ready v, _, s1) => (.won 1 v, dropFut b s1, [1])
  | (.panicked m, _, s1) => (.panickedSel m, dropFut b s1, [1])
  | (.pending, a', s1) =>
    match pollFut w b s1 with
    | (.ready v, _, s2) => (.won 2 v, dropFut a' s2, [1, 2])
    | (.panicked m, _, s2) => (.panickedSel m, dropFut a' s2, [1, 2])
    | (.pending, b', s2) => (.pend a' b', s2, [1, 2])

/-- Modelled from the spec (§4.6/§4.3): the root task awaits a select
inline: poll it; while pending, advance the clock to the next timer and
retry.  Accumulates the tags polled in every round: once the combinator
has resolved, no further child is ever polled. -/
def awaitSelectAux :
    Nat → Fut → Fut → RT → List Nat → Option (Nat × Nat) × RT × List Nat
  | 0, _, _, s, acc => (none, s, acc)
  | fuel + 1, a, b, s, acc =>
    match selectPoll 0 a b s with
    | (.won t v, s', p) => (some (t, v), s', acc ++ p)
    | (.panickedSel _, s', p) => (none, s', acc ++ p)
    | (.pend a' b', s', p) =>
      let s1 := drainQueue s'
      match s1.timers with
      | [] => (none, s1, acc ++ p)
      | _ :: _ => awaitSelectAux fuel a' b' (fireNext s1) (acc ++ p)

/-- The run of `select(sleep(d1), sleep(d2))` from the initial state:
resolved outcome, final runtime state, and the per-round log of which
children were polled. -/
def runSelectSleeps (d1 d2 : Nat) : Option (Nat × Nat) × RT × List Nat :=
  awaitSelectAux 3 (.sleepFor d1) (.sleepFor d2) initRT []

/-- **C2.** For every pair of child futures: the first child (in
argument order) to yield `Ready` wins with its own tag — if child 1
polls `Ready` the combinator resolves with tag 1, polling only child 1
that round and dropping child 2; if child 1 is pending and child 2
polls `Ready` the combinator resolves with tag 2 and child 1 is
dropped; once a round resolves, the driving loop returns at once, so
the remaining child is never polled again (the poll log ends with the
winning round); dropping an armed sleep removes its timer registration.
In particular, for `d1 < d2`, `select(sleep(d1), sleep(d2))` resolves
with the first child's tag, the loser is polled only in the round
before resolution (the poll log is `[1, 2, 1]`), and the final timer
registry is empty — the second sleep's registration was removed when
the loser was dropped, so no wake-up of it can ever fire. -/
theorem select_resolves_first_and_cancels_loser (d1 d2 : Nat)
    (h : d1 < d2) :
    (∀ (w : Nat) (a b : Fut) (s : RT) (v : Nat) (fa : Fut) (s1 : RT),
      pollFut w a s = (.ready v, fa, s1) →
      selectPoll w a b s = (.won 1 v, dropFut b s1, [1])) ∧
    (∀ (w : Nat) (a b : Fut) (s : RT) (a' : Fut) (s1 : RT) (v : Nat)
        (fb : Fut) (s2 : RT),
      pollFut w a s = (.pending, a', s1) →
      pollFut w b s1 = (.ready v, fb, s2) →
      selectPoll w a b s = (.won 2 v, dropFut a' s2, [1, 2])) ∧
    (∀ (fuel : Nat) (a b : Fut) (s : RT) (acc : List Nat) (t v : Nat)
        (s' : RT) (p : List Nat),
      selectPoll 0 a b s = (.won t v, s', p) →
      awaitSelectAux (fuel + 1) a b s acc = (some (t, v), s', acc ++ p)) ∧
    (∀ (eid dl : Nat) (s : RT),
      dropFut (.sleepUntil eid dl) s =
        { s with timers := s.timers.filter (fun e => e.id ≠ eid) }) ∧
    runSelectSleeps d1 d2 =
      (some (1, 0),
       { now := d1, timers := [], nextTimerId := 2, tasks := [],
         readyQueue := [], nextTaskId := 1, trace := [] },
       [1, 2, 1]) := by
  have h' : d1 ≤ d2 := le_of_lt h
  refine ⟨?_, ?_, ?_, fun _ _ _ => rfl, ?_⟩
  · intro w a b s v fa s1 hpa
    rw [selectPoll, hpa]
  · intro w a b s a' s1 v fb s2 hpa hpb
    simp [selectPoll, hpa, hpb]
  · intro fuel a b s acc t v s' p hsel
    rw [awaitSelectAux, hsel]
  · simp [runSelectSleeps, awaitSelectAux, selectPoll, pollFut, initRT,
      insertTimer, drainQueue, fireNext, wake, dropFut, h']

/-- Witness for C2 at `d1 = 1`, `d2 = 2`. -/
theorem select_resolves_first_witness :
    (∀ (w : Nat) (a b : Fut) (s : RT) (v : Nat) (fa : Fut) (s1 : RT),
      pollFut w a s = (.ready v, fa, s1) →
      selectPoll w a b s = (.won 1 v, dropFut b s1, [1])) ∧
    (∀ (w : Nat) (a b : Fut) (s : RT) (a' : Fut) (s1 : RT) (v : Nat)
        (fb : Fut) (s2 : RT),
      pollFut w a s = (.pending, a', s1) →
      pollFut w b s1 = (.ready v, fb, s2) →
      selectPoll w a b s = (.won 2 v, dropFut a' s2, [1, 2])) ∧
    (∀ (fuel : Nat) (a b : Fut) (s : RT) (acc : List Nat) (t v : Nat)
        (s' : RT) (p : List Nat),
      selectPoll 0 a b s = (.won t v, s', p) →
      awaitSelectAux (fuel + 1) a b s acc = (some (t, v), s', acc ++ p)) ∧
    (∀ (eid dl : Nat) (s : RT),
      dropFut (.sleepUntil eid dl) s =
        { s with timers := s.timers.filter (fun e => e.id ≠ eid) }) ∧
    runSelectSleeps 1 2 =
      (some (1, 0),
       { now := 1, timers := [], nextTimerId := 2, tasks := [],
         readyQueue := [], nextTaskId := 1, trace := [] },
       [1, 2, 1]) :=
  select_resolves_first_and_cancels_loser 1 2 (by decide)

/-- The registry invariant: entries are in non-decreasing deadline order
(equal deadlines in insertion order, which `insertTimer` maintains). -/
def timersSorted : List TimerEntry → Prop :=
  List.Pairwise (fun x y => x.deadline ≤ y.deadline)

theorem insertTimer_pair_adjacent (A B : TimerEntry)
    (hAB : A.deadline = B.deadline) :
    ∀ r : List TimerEntry, timersSorted r →
      ∃ l1 l2, insertTimer (insertTimer r A) B = l1 ++ A :: B :: l2 ∧
        (∀ e ∈ l1, e.deadline ≤ A.deadline) ∧
        (∀ e ∈ l2, ¬ e.deadline ≤ A.deadline) := by
  intro r
  induction r with
  | nil =>
    intro _
    refine ⟨[], [], ?_, by simp, by simp⟩
    simp [insertTimer, hAB]
  | cons x xs ih =>
    intro hs
    rw [timersSorted, List.pairwise_cons] at hs
    obtain ⟨hx, hxs⟩ := hs
    by_cases hle : x.deadline ≤ A.deadline
    · obtain ⟨l1, l2, heq, h1, h2⟩ := ih hxs
      refine ⟨x :: l1, l2, ?_, ?_, h2⟩
      · rw [insertTimer, if_pos hle, insertTimer,
          if_pos (hAB ▸ hle : x.deadline ≤ B.deadline), heq]
        rfl
      · intro e he
        rcases List.mem_cons.mp he with he | he
        · subst he; exact hle
        · exact h1 e he
    · refine ⟨[], x :: xs, ?_, by simp, ?_⟩
      · rw [insertTimer, if_neg hle, insertTimer,
          if_pos (le_of_eq hAB), insertTimer,
          if_neg (hAB ▸ hle : ¬ x.deadline ≤ B.deadline)]
        rfl
      · intro e he
        rcases List.mem_cons.mp he with he | he
        · subst he; exact hle
        · intro habs
          exact hle (le_trans (hx e he) habs)

theorem fireElapsed_append (t : Nat) :
    ∀ l1 : List TimerEntry, (∀ e ∈ l1, e.deadline ≤ t) →
      ∀ rest : List TimerEntry,
        fireElapsed t (l1 ++ rest) =
          (l1.map (fun e => e.waker) ++ (fireElapsed t rest).1,
            (fireElapsed t rest).2) := by
  intro l1
  induction l1 with
  | nil => intro _ rest; simp
  | cons e l1 ih =>
    intro h rest
    have he := h e (List.mem_cons_self e l1)
    have hl1 := fun x hx => h x (List.mem_cons_of_mem e hx)
    rw [List.cons_append, fireElapsed, if_pos he, ih hl1 rest]
    rfl

/-- **C6.** If timer `A` is registered before timer `B` with an identical
deadline — into any registry satisfying the ordering invariant — then at
any tick `t` at which the shared deadline has elapsed, `A`'s waker fires
immediately before `B`'s: the fired-waker sequence is
`pre ++ [A.waker, B.waker] ++ post`. -/
theorem equal_deadline_timers_fire_in_insertion_order
    (r : List TimerEntry) (A B : TimerEntry) (t : Nat)
    (hs : timersSorted r) (hAB : A.deadline = B.deadline)
    (ht : A.deadline ≤ t) :
    ∃ pre post,
      (fireElapsed t (insertTimer (insertTimer r A) B)).1 =
        pre ++ A.waker :: B.waker :: post := by
  obtain ⟨l1, l2, heq, h1, _⟩ := insertTimer_pair_adjacent A B hAB r hs
  refine ⟨l1.map (fun e => e.waker), (fireElapsed t l2).1, ?_⟩
  rw [heq, fireElapsed_append t l1 (fun e he => le_trans (h1 e he) ht)]
  rw [fireElapsed, if_pos ht, fireElapsed, if_pos (hAB ▸ ht : B.deadline ≤ t)]

/-- Witness for C6: registry `[⟨0, 1, 7⟩]`, then `A = ⟨1, 5, 8⟩` and
`B = ⟨2, 5, 9⟩` inserted with the shared deadline 5; firing at tick 5,
waker 8 fires immediately before waker 9. -/
theorem equal_deadline_timers_witness :
    ∃ pre post,
      (fireElapsed 5
          (insertTimer (insertTimer [⟨0, 1, 7⟩] ⟨1, 5, 8⟩) ⟨2, 5, 9⟩)).1 =
        pre ++ (8 : Nat) :: (9 : Nat) :: post :=
  equal_deadline_timers_fire_in_insertion_order [⟨0, 1, 7⟩] ⟨1, 5, 8⟩
    ⟨2, 5, 9⟩ 5 (by simp [timersSorted]) (by decide) (by decide)

/-- Embedding of `async fn say_hi()` from `src/_tokio/src/main.rs`:
calling it only constructs a future value — the body, which prints
`"Hi"`, runs when the future is polled.  Written as a state function to
make "construction has no observable effect" a provable statement. -/
def say_hi : RT → Fut × RT := fun s => (.emit "Hi" 0, s)

/-- Embedding of `async fn awaiting_function()` from
`src/_tokio/src/main.rs`: constructs a future that sleeps one second
when polled. -/
def awaiting_function : RT → Fut × RT := fun s => (.sleepFor 1, s)

/-- The "futures are lazy" fragment of `main`
(`src/_tokio/src/main.rs` lines 39–44): construct `say_hi()` first,
print, sleep one second, print again, and only then await the future. -/
def runLazyScenario : RT :=
  let (fut, s0) := say_hi initRT
  let s1 := printLn "Sleeping on main function..." s0
  let (_, s2) := awaitFut (.sleepFor 1) s1
  let s3 := printLn "This will still be printed before Hi" s2
  (awaitFut fut s3).2

/-- **C3.** Futures are lazy: constructing one performs none of its work
and has no observable effect (the runtime state, including the printed
trace, is returned unchanged); the work happens only while polling, so
in the tutorial's fragment the `"Hi"` of the future constructed first is
printed only at the final `await`, after the lines printed in between. -/
theorem futures_are_lazy :
    (∀ s : RT, (say_hi s).2 = s ∧ (awaiting_function s).2 = s) ∧
    runLazyScenario.trace =
      ["Sleeping on main function...",
       "This will still be printed before Hi", "Hi"] :=
  ⟨fun _ => ⟨rfl, rfl⟩, rfl⟩

/-- The spawn fragment of `main` (`src/_tokio/src/main.rs` lines 48–57):
construct `say_hi()`, print, `tokio::spawn` it, print, sleep one second,
print twice more, then await the `JoinHandle`. -/
def runSpawnScenario : Outcome × RT :=
  let (fut, s0) := say_hi initRT
  let s1 := printLn "Running future as task in the background" s0
  let (handle, s2) := spawn fut s1
  let s3 := printLn "Sleeping on main function..." s2
  let (_, s4) := awaitFut (.sleepFor 1) s3
  let s5 := printLn "This will be printed after Hi" s4
  let s6 := printLn "Waiting for task to finish..." s5
  awaitHandle handle s6

/-- **C4.** `spawn(f)` wraps `f` in a new task, appends it to the FIFO
ready queue as `Runnable`, and returns the handle immediately — it never
suspends the caller: the clock, the trace, the timers and the existing
tasks are all unchanged.  In the tutorial's fragment the spawned task
then runs interleaved with the caller: it completes (printing `"Hi"`)
while the caller is suspended in its sleep, before the caller's next
print, and its handle yields its result. -/
theorem spawn_enqueues_runnable_and_interleaves :
    (∀ (f : Fut) (s : RT),
      (spawn f s).1 = s.nextTaskId ∧
      (spawn f s).2.tasks = s.tasks ++ [⟨s.nextTaskId, f, .runnable⟩] ∧
      (spawn f s).2.readyQueue = s.readyQueue ++ [s.nextTaskId] ∧
      (spawn f s).2.now = s.now ∧
      (spawn f s).2.trace = s.trace ∧
      (spawn f s).2.timers = s.timers) ∧
    runSpawnScenario =
      (.ok 0,
       { now := 1, timers := [], nextTimerId := 1,
         tasks := [⟨1, .emit "Hi" 0, .completed 0⟩],
         readyQueue := [], nextTaskId := 2,
         trace := ["Running future as task in the background",
           "Sleeping on main function...", "Hi",
           "This will be printed after Hi",
           "Waiting for task to finish..."] }) :=
  ⟨fun _ _ => ⟨rfl, rfl, rfl, rfl, rfl, rfl⟩, rfl⟩

/-- A run with two spawned tasks, the first of which panics when polled:
outcome observed through the first handle, through the second handle,
and the final state. -/
def runPanicScenario : Outcome × Outcome × RT :=
  let (h1, s1) := spawn (.panicF "boom") initRT
  let (h2, s2) := spawn (.emit "second task done" 7) s1
  let (o1, s3) := awaitHandle h1 s2
  let (o2, s4) := awaitHandle h2 s3
  (o1, o2, s4)

/-- **C5.** A panic inside a polled task future is caught at the task
boundary: the executor step marks exactly that task `Panicked` and
changes nothing else of the runtime state (clock, trace, timers, ready
queue) — in particular it never terminates the executor loop.  In the
two-task run, the first task's panic is surfaced through its JoinHandle
as the distinct `panicked` outcome (never silently swallowed), while the
second task still runs to completion and yields its result. -/
theorem panic_caught_at_task_boundary :
    (∀ (s : RT) (tid : Nat) (t : Task) (msg : String),
      s.tasks.find? (fun x => x.tid = tid) = some t →
      t.fut = .panicF msg → t.state = .runnable →
      stepTask s tid =
        { s with tasks := setTask tid (.panicF msg) (.panickedSt msg) s.tasks }) ∧
    runPanicScenario =
      (.panicked "boom", .ok 7,
       { now := 0, timers := [], nextTimerId := 0,
         tasks := [⟨1, .panicF "boom", .panickedSt "boom"⟩,
           ⟨2, .emit "second task done" 7, .completed 7⟩],
         readyQueue := [], nextTaskId := 3,
         trace := ["second task done"] }) := by
  constructor
  · intro s tid t msg hfind hfut hstate
    simp [stepTask, hfind, hstate, hfut, pollFut]
  · rfl

/-- Witness for C5: stepping the executor on a freshly spawned panicking
task marks exactly that task `Panicked`. -/
theorem panic_caught_witness :
    stepTask (spawn (.panicF "boom") initRT).2 1 =
      { (spawn (.panicF "boom") initRT).2 with
        tasks := setTask 1 (.panicF "boom") (.panickedSt "boom")
          (spawn (.panicF "boom") initRT).2.tasks } :=
  panic_caught_at_task_boundary.1 (spawn (.panicF "boom") initRT).2 1
    ⟨1, .panicF "boom", .runnable⟩ "boom" rfl rfl rfl

/-- The error a rejected poll reports. -/
inductive RepollError where
  | polledAfterReady
deriving Repr, DecidableEq

/-- Modelled from the spec (§4.1/§8): a future wrapper enforcing the
poll contract.  `done` records that the wrapped future has already
returned `Ready`; polling it again is rejected with an explicit error
instead of silently producing stale data. -/
structure GuardedFut where
  fut : Fut
  done : Bool
deriving Repr, DecidableEq

/-- Modelled from the spec (§4.1/§8): poll through the guard: an
already-completed future yields `polledAfterReady`; otherwise the
wrapped future is polled and a `Ready` result latches `done`. -/
def pollGuarded (w : Nat) (g : GuardedFut) (s : RT) :
    Except RepollError (PollOut × GuardedFut × RT) :=
  if g.done then .error .polledAfterReady
  else
    match pollFut w g.fut s with
    | (.ready v, f', s') => .ok (.ready v, ⟨f', true⟩, s')
    | (p, f', s') => .ok (p, ⟨f', false⟩, s')

/-- **C7.** Polling a future that has already returned `Ready` is
rejected with an explicit error, never answered with stale data: any
guarded future marked done polls to `polledAfterReady`, and whenever a
poll returns `Ready`, every subsequent poll of the future it returned —
in any state, with any waker — is rejected. -/
theorem repoll_after_ready_rejected :
    (∀ (w : Nat) (g : GuardedFut) (s : RT), g.done = true →
      pollGuarded w g s = .error .polledAfterReady) ∧
    (∀ (w : Nat) (g g' : GuardedFut) (s s' s'' : RT) (v : Nat),
      pollGuarded w g s = .ok (.ready v, g', s') →
      ∀ w', pollGuarded w' g' s'' = .error .polledAfterReady) := by
  constructor
  · intro w g s hdone
    rw [pollGuarded, if_pos hdone]
  · intro w g g' s s' s'' v hok w'
    by_cases hd : g.done
    · rw [pollGuarded, if_pos hd] at hok
      exact absurd hok (by simp)
    · rw [pollGuarded, if_neg hd] at hok
      rcases hpf : pollFut w g.fut s with ⟨p, f', st⟩
      rw [hpf] at hok
      match p with
      | .ready v' =>
        have hg' : g' = ⟨f', true⟩ := by
          have := (Except.ok.injEq _ _).mp hok
          exact (Prod.mk.injEq _ _ _ _).mp ((Prod.mk.injEq _ _ _ _).mp this).2
            |>.1.symm
        rw [hg']
        simp [pollGuarded]
      | .pending => simp at hok
      | .panicked m => simp at hok

/-- Witness for C7: polling `ret 5` once yields `Ready 5`; polling the
future it returned is rejected with `polledAfterReady`. -/
theorem repoll_after_ready_witness :
    pollGuarded 0 ⟨Fut.ret 5, true⟩ initRT = .error .polledAfterReady :=
  repoll_after_ready_rejected.2 0 ⟨Fut.ret 5, false⟩ ⟨Fut.ret 5, true⟩
    initRT initRT initRT 5 rfl 0

end Sched
